import Mathlib

/-!
Shallow embedding of the UPC product-search pipeline
(`upc_webscrapper.py` and `markdown_scrape_tool.py`).

Strings are modelled by `String`; the Python substring operations
(`in`, `str.count`, `str.replace`, `str.join`) are modelled on the
character list (`String.data`) with Python semantics (non-overlapping,
left-to-right).  The generative service, the scraping service and the
per-record pipeline effects are opaque parameters, as they are external
collaborators of the code under study.
-/

/-- Python `sub in s` restricted to a match at the start: `pyStartsWith sub s`
is true iff `sub` is an initial segment of `s`. -/
def pyStartsWith : List Char → List Char → Bool
  | [], _ => true
  | _ :: _, [] => false
  | a :: as, b :: bs => a == b && pyStartsWith as bs

/-- Python `sub in s`: `sub` occurs contiguously somewhere in `s`. -/
def hasSubstr (sub : List Char) : List Char → Bool
  | [] => pyStartsWith sub []
  | c :: t => pyStartsWith sub (c :: t) || hasSubstr sub t

/-- Helper for `countOcc`: while `skip > 0` the character is part of the
previous match and is passed over; at `skip = 0` a new match may start. -/
def countOccAux (sub : List Char) : Nat → List Char → Nat
  | _, [] => 0
  | n + 1, _ :: t => countOccAux sub n t
  | 0, c :: t =>
    if sub ≠ [] ∧ pyStartsWith sub (c :: t) = true then
      1 + countOccAux sub (sub.length - 1) t
    else
      countOccAux sub 0 t

/-- Python `s.count(sub)` for non-empty `sub`: number of non-overlapping
occurrences, scanning left to right.  (The Python corner case of an empty
pattern is never exercised by the code and falls to the no-match branch.) -/
def countOcc (sub : List Char) (s : List Char) : Nat :=
  countOccAux sub 0 s

/-- Helper for `replaceAll`, with the same skip discipline as
`countOccAux`: the matched occurrence has already been emitted as `repl`,
so its remaining characters are dropped. -/
def replaceAllAux (sub repl : List Char) : Nat → List Char → List Char
  | _, [] => []
  | n + 1, _ :: t => replaceAllAux sub repl n t
  | 0, c :: t =>
    if sub ≠ [] ∧ pyStartsWith sub (c :: t) = true then
      repl ++ replaceAllAux sub repl (sub.length - 1) t
    else
      c :: replaceAllAux sub repl 0 t

/-- Python `s.replace(sub, repl)` for non-empty `sub`: replace every
non-overlapping occurrence, scanning left to right. -/
def replaceAll (sub repl : List Char) (s : List Char) : List Char :=
  replaceAllAux sub repl 0 s


/-! ## CleanScrapedDataTool -/

/-- The fixed error string returned by `CleanScrapedDataTool._run` when
`cleaned_output` is falsy after the loop. -/
def gemini_error_sentinel : String :=
  "Error: No valid response after retries from Gemini"

/-- The per-attempt acceptance check of `CleanScrapedDataTool._run`:
`('\x22UPC\x22' in cleaned_output or '\x22SKU\x22' in cleaned_output) and
cleaned_output.count(\x22null\x22) == 0`. -/
def acceptanceTest (s : String) : Bool :=
  (hasSubstr "\"UPC\"".data s.data || hasSubstr "\"SKU\"".data s.data) &&
    countOcc "null".data s.data == 0

/-- One Gemini response, abstracted to the list of texts
`candidates[i].content.parts[0].text`; the empty list models a falsy or
empty `response.candidates`. -/
abbrev GeminiResponse := List String

/-- Whether an attempt whose response is `resp` passes the acceptance check
(non-empty candidate list and accepted text), i.e. triggers the `break`. -/
def responseAccepted (resp : GeminiResponse) : Bool :=
  match resp.head? with
  | some t => acceptanceTest t
  | none => false

/-- State observed when the `while` loop of `CleanScrapedDataTool._run`
exits: the final `cleaned_output`, the number of `generate_content`
invocations, the number of `time.sleep(1)` calls, and whether the loop
exited through `break`. -/
structure CleanLoopResult where
  cleaned : Option String
  attempts : Nat
  sleeps : Nat
  accepted : Bool
  deriving Repr, DecidableEq

/-- Body of one loop iteration of `CleanScrapedDataTool._run`: given the
response and the current `cleaned_output`, return the new
`cleaned_output` (overwritten by the head candidate text when the
candidate list is non-empty) and whether the `break` fires. -/
def cleanIter (resp : GeminiResponse) (c : Option String) : Option String × Bool :=
  match resp.head? with
  | none => (c, false)
  | some t => (some t, acceptanceTest t)

/-- The `while attempt <= retries` loop of `CleanScrapedDataTool._run`.
`service i` is the Gemini response of the iteration with `attempt == i`;
`fuel` is the number of loop iterations still permitted by the guard; `c`
is the current value of `cleaned_output`. -/
def cleanLoop (service : Nat → GeminiResponse) : Nat → Nat → Option String → CleanLoopResult
  | 0, _, c => ⟨c, 0, 0, false⟩
  | fuel + 1, idx, c =>
    if (cleanIter (service idx) c).2 then
      ⟨(cleanIter (service idx) c).1, 1, 0, true⟩
    else
      let s := cleanLoop service fuel (idx + 1) (cleanIter (service idx) c).1
      ⟨s.cleaned, s.attempts + 1, s.sleeps + 1, s.accepted⟩

/-- Result of `CleanScrapedDataTool._run`: the returned string plus the
observable attempt/sleep counts of the loop. -/
structure CleanRunResult where
  output : String
  attempts : Nat
  sleeps : Nat
  accepted : Bool
  deriving Repr, DecidableEq

/-- `CleanScrapedDataTool._run(scraped_data, retries)`.  The prompt is a
fixed function of `scraped_data`, so the service is abstracted as a
function of the attempt index only.  `while attempt <= retries` with
`attempt` starting at 0 runs `retries + 1` iterations when
`retries >= 0` and none otherwise; the final statement is
`return cleaned_output if cleaned_output else <sentinel>`. -/
def cleanRun (service : Nat → GeminiResponse) (retries : Int) : CleanRunResult :=
  let fuel : Nat := if retries < 0 then 0 else retries.toNat + 1
  let s := cleanLoop service fuel 0 none
  { output :=
      match s.cleaned with
      | some t => if t = "" then gemini_error_sentinel else t
      | none => gemini_error_sentinel,
    attempts := s.attempts, sleeps := s.sleeps, accepted := s.accepted }

/-- The value held by `cleaned_output` after the loop has processed the
iterations with indices `idx, idx + 1, ..., idx + fuel - 1`, assuming no
iteration breaks: each iteration with a non-empty candidate list
overwrites the variable with the head text. -/
def lastWritten (service : Nat → GeminiResponse) : Nat → Nat → Option String → Option String
  | _, 0, c => c
  | idx, fuel + 1, c =>
    lastWritten service (idx + 1) fuel (cleanIter (service idx) c).1

/-! ## Per-record file name and batch runner -/

/-- One element of the input JSON array. -/
structure InputRecord where
  manufacturer_name : String
  product_description : String
  manufacturer_part_number : String

/-- `generate_output_filename(inputs)`, with the `datetime.now()` timestamp
made an explicit parameter. -/
def generate_output_filename (inputs : InputRecord) (timestamp : String) : String :=
  let base_name := inputs.manufacturer_name ++ "_" ++ inputs.product_description
  let base_name :=
    String.mk (replaceAll "\"".data "".data
      (replaceAll "/".data "_".data
        (replaceAll " ".data "_".data base_name.data)))
  "output/" ++ base_name ++ "_" ++ timestamp ++ ".txt"

/-- Modelled from the words of the specification, for comparison with
`generate_output_filename`: every space replaced by an underscore, every
slash replaced by an underscore, every double quote removed. -/
def sanitizeSpec (s : List Char) : List Char :=
  (s.map (fun c => if c = ' ' ∨ c = '/' then '_' else c)).filter (fun c => c != '"')

/-- The fixed path of the shared intermediate artifact file, used as
`output_file` of the write task and read back by the batch loop. -/
def intermediate_file_path : String := "output/output_upc_search.json"

/-- `final_results_string = "[\n" + ",\n".join(final_results) + "\n]"`;
Python `sep.join` is modelled by `String.intercalate`. -/
def final_results_string (final_results : List String) : String :=
  "[\n" ++ String.intercalate ",\n" final_results ++ "\n]"

/-- Modelled from the words of the specification, for comparison with
`final_results_string`: the sequence joined with a comma-newline
separator between consecutive elements. -/
def commaNewlineJoinSpec : List String → String
  | [] => ""
  | [s] => s
  | s :: rest => s ++ ",\n" ++ commaNewlineJoinSpec rest

/-- Helper: the tail of a separated join, one separator before each
element. -/
def sepTailJoin (sep : String) : List String → String
  | [] => ""
  | x :: xs => sep ++ x ++ sepTailJoin sep xs

/-- Externally observable effect of one record of the batch loop: the
state of the shared artifact file after `crew.kickoff` returns (`none`
when the file is missing), and whether the subsequent read succeeds. -/
structure RecordEffect where
  artifact : Option String
  readOk : Bool

/-- In-memory state of the batch loop: the collected `final_results`
list and the printed log lines. -/
structure BatchState where
  final_results : List String
  log : List String

/-- The `print(f"Processing: ...")` line of the batch loop. -/
def processing_message (inputs : InputRecord) : String :=
  "Processing: " ++ inputs.manufacturer_name ++ " - " ++ inputs.product_description

/-- The `print(f"Finished processing: ...")` line of the batch loop. -/
def finished_message (inputs : InputRecord) : String :=
  "Finished processing: " ++ inputs.manufacturer_name ++ " - " ++ inputs.product_description

/-- The skip line printed when the artifact file is missing or empty. -/
def skip_message : String :=
  "No valid data found in " ++ intermediate_file_path ++ ", skipping."

/-- The line printed when reading the intermediate file raises. -/
def read_error_message : String :=
  "Error reading the intermediate file"

/-- One iteration of the `for inputs in inputs_list` loop: print the
processing line, run the crew (its effect on the artifact file is
`eff.artifact`), then append the artifact contents to `final_results`
when the file exists and has positive size and the read succeeds, and
print the finished line. -/
def runRecord (st : BatchState) (inputs : InputRecord) (eff : RecordEffect) : BatchState :=
  let st1 : BatchState := { st with log := st.log ++ [processing_message inputs] }
  let st2 : BatchState :=
    match eff.artifact with
    | some content =>
      if 0 < content.utf8ByteSize then
        if eff.readOk then
          { st1 with final_results := st1.final_results ++ [content] }
        else
          { st1 with log := st1.log ++ [read_error_message] }
      else
        { st1 with log := st1.log ++ [skip_message] }
    | none => { st1 with log := st1.log ++ [skip_message] }
  { st2 with log := st2.log ++ [finished_message inputs] }

/-- The whole batch loop, starting from empty `final_results` and an
empty log; each input record is paired with the effect of its pipeline
run. -/
def runBatch (items : List (InputRecord × RecordEffect)) : BatchState :=
  items.foldl (fun st p => runRecord st p.1 p.2) ⟨[], []⟩

/-- The element (if any) that one record contributes to `final_results`. -/
def recordContribution (eff : RecordEffect) : Option String :=
  match eff.artifact with
  | some content =>
    if 0 < content.utf8ByteSize ∧ eff.readOk = true then some content else none
  | none => none

/-- The log lines that one record contributes. -/
def recordLog (inputs : InputRecord) (eff : RecordEffect) : List String :=
  [processing_message inputs] ++
    (match eff.artifact with
     | some content =>
       if 0 < content.utf8ByteSize then
         (if eff.readOk then [] else [read_error_message])
       else [skip_message]
     | none => [skip_message]) ++
    [finished_message inputs]

/-! ## MarkdownScrapeTool -/

/-- `MarkdownScrapeTool`, holding the wrapped `ScrapeWebsiteTool` as an
opaque scraping function `url -> text`. -/
structure MarkdownScrapeTool where
  scrape_tool : String → String

/-- `MarkdownScrapeTool._format_as_markdown`: all formatting lines are
commented out in the source and the input text is returned unchanged. -/
def MarkdownScrapeTool.format_as_markdown (_tool : MarkdownScrapeTool) (text : String) : String :=
  text

/-- `MarkdownScrapeTool._run`: scrape the url, then format the result. -/
def MarkdownScrapeTool.run (tool : MarkdownScrapeTool) (url : String) : String :=
  tool.format_as_markdown (tool.scrape_tool url)

/-! ## Substring lemmas -/

theorem pyStartsWith_iff (sub : List Char) : ∀ s : List Char,
    pyStartsWith sub s = true ↔ ∃ t, s = sub ++ t := by
  induction sub with
  | nil => intro s; simp [pyStartsWith]
  | cons a as ih =>
    intro s
    cases s with
    | nil =>
      simp [pyStartsWith]
    | cons b bs =>
      simp only [pyStartsWith, Bool.and_eq_true, beq_iff_eq, ih, List.cons_append,
        List.cons.injEq]
      constructor
      · rintro ⟨rfl, t, rfl⟩
        exact ⟨t, rfl, rfl⟩
      · rintro ⟨t, rfl, rfl⟩
        exact ⟨rfl, t, rfl⟩

theorem hasSubstr_iff (sub : List Char) : ∀ s : List Char,
    hasSubstr sub s = true ↔ ∃ p t, s = p ++ sub ++ t := by
  intro s
  induction s with
  | nil =>
    rw [show hasSubstr sub [] = pyStartsWith sub [] from rfl, pyStartsWith_iff]
    constructor
    · rintro ⟨t, ht⟩
      exact ⟨[], t, by simpa using ht⟩
    · rintro ⟨p, t, ht⟩
      have h1 : p ++ sub = [] ∧ t = [] := List.append_eq_nil.mp ht.symm
      have h2 : p = [] ∧ sub = [] := List.append_eq_nil.mp h1.1
      exact ⟨t, by simp [h2.2, h1.2]⟩
  | cons c cs ih =>
    rw [show hasSubstr sub (c :: cs) = (pyStartsWith sub (c :: cs) || hasSubstr sub cs) from rfl]
    simp only [Bool.or_eq_true, pyStartsWith_iff, ih]
    constructor
    · rintro (⟨u, hu⟩ | ⟨p, u, hu⟩)
      · exact ⟨[], u, by simpa using hu⟩
      · exact ⟨c :: p, u, by simp [hu]⟩
    · rintro ⟨p, u, hu⟩
      cases p with
      | nil => exact Or.inl ⟨u, by simpa using hu⟩
      | cons x p' =>
        right
        rw [List.cons_append, List.cons_append] at hu
        injection hu with h1 h2
        exact ⟨p', u, h2⟩

theorem hasSubstr_trans {a b c : List Char} (h1 : hasSubstr a b = true)
    (h2 : hasSubstr b c = true) : hasSubstr a c = true := by
  rw [hasSubstr_iff] at h1 h2 ⊢
  obtain ⟨p, t, rfl⟩ := h1
  obtain ⟨q, u, rfl⟩ := h2
  exact ⟨q ++ p, t ++ u, by simp [List.append_assoc]⟩

/-! ## Clean loop lemmas -/

theorem cleanRun_fuel (n : Nat) :
    (if (n : Int) < 0 then 0 else ((n : Int)).toNat + 1) = n + 1 := by
  rw [if_neg (by omega : ¬ ((n : Int) < 0))]
  omega

theorem cleanIter_none {resp : GeminiResponse} {c : Option String} (h : resp.head? = none) :
    cleanIter resp c = (c, false) := by
  unfold cleanIter
  rw [h]

theorem cleanIter_some {resp : GeminiResponse} {c : Option String} {t : String}
    (h : resp.head? = some t) : cleanIter resp c = (some t, acceptanceTest t) := by
  unfold cleanIter
  rw [h]

theorem cleanIter_snd (resp : GeminiResponse) (c : Option String) :
    (cleanIter resp c).2 = responseAccepted resp := by
  unfold cleanIter responseAccepted
  cases resp.head? <;> rfl

theorem cleanLoop_succ_accept (service : Nat → GeminiResponse) (fuel idx : Nat)
    (c : Option String) (h : responseAccepted (service idx) = true) :
    cleanLoop service (fuel + 1) idx c = ⟨(cleanIter (service idx) c).1, 1, 0, true⟩ := by
  have h2 : (cleanIter (service idx) c).2 = true := by rw [cleanIter_snd]; exact h
  simp [cleanLoop, h2]

theorem cleanLoop_succ_reject (service : Nat → GeminiResponse) (fuel idx : Nat)
    (c : Option String) (h : responseAccepted (service idx) = false) :
    cleanLoop service (fuel + 1) idx c =
      ⟨(cleanLoop service fuel (idx + 1) (cleanIter (service idx) c).1).cleaned,
       (cleanLoop service fuel (idx + 1) (cleanIter (service idx) c).1).attempts + 1,
       (cleanLoop service fuel (idx + 1) (cleanIter (service idx) c).1).sleeps + 1,
       (cleanLoop service fuel (idx + 1) (cleanIter (service idx) c).1).accepted⟩ := by
  have h2 : (cleanIter (service idx) c).2 = false := by rw [cleanIter_snd]; exact h
  simp [cleanLoop, h2]

theorem cleanLoop_bounds (service : Nat → GeminiResponse) :
    ∀ (fuel idx : Nat) (c : Option String),
      (cleanLoop service fuel idx c).attempts ≤ fuel ∧
      ((cleanLoop service fuel idx c).accepted = true →
        1 ≤ (cleanLoop service fuel idx c).attempts) ∧
      ((cleanLoop service fuel idx c).accepted = true →
        (cleanLoop service fuel idx c).sleeps = (cleanLoop service fuel idx c).attempts - 1) ∧
      ((cleanLoop service fuel idx c).accepted = false →
        (cleanLoop service fuel idx c).sleeps = (cleanLoop service fuel idx c).attempts) := by
  intro fuel
  induction fuel with
  | zero =>
    intro idx c
    simp [cleanLoop]
  | succ n ih =>
    intro idx c
    cases hacc : responseAccepted (service idx) with
    | true =>
      rw [cleanLoop_succ_accept service n idx c hacc]
      simp
    | false =>
      rw [cleanLoop_succ_reject service n idx c hacc]
      obtain ⟨h1, h2, h3, h4⟩ := ih (idx + 1) (cleanIter (service idx) c).1
      cases hacc2 : (cleanLoop service n (idx + 1) (cleanIter (service idx) c).1).accepted with
      | true =>
        have ha := h2 hacc2
        have hs := h3 hacc2
        refine ⟨by dsimp only; omega, fun _ => by dsimp only; omega,
          fun _ => by dsimp only; omega, fun hf => absurd hf (by decide)⟩
      | false =>
        have hs := h4 hacc2
        refine ⟨by dsimp only; omega, fun ht => absurd ht (by decide),
          fun ht => absurd ht (by decide), fun _ => by dsimp only; omega⟩

theorem cleanLoop_rejectAll (service : Nat → GeminiResponse) :
    ∀ (fuel idx : Nat) (c : Option String),
      (∀ i, idx ≤ i → i < idx + fuel → responseAccepted (service i) = false) →
      cleanLoop service fuel idx c = ⟨lastWritten service idx fuel c, fuel, fuel, false⟩ := by
  intro fuel
  induction fuel with
  | zero =>
    intro idx c _
    simp [cleanLoop, lastWritten]
  | succ n ih =>
    intro idx c h
    have hidx : responseAccepted (service idx) = false := h idx (Nat.le_refl _) (by omega)
    rw [cleanLoop_succ_reject service n idx c hidx,
      ih (idx + 1) (cleanIter (service idx) c).1 (fun i hi1 hi2 => h i (by omega) (by omega))]
    simp [lastWritten]

theorem lastWritten_none_or_empty (service : Nat → GeminiResponse) :
    ∀ (fuel idx : Nat) (c : Option String),
      (∀ i, idx ≤ i → i < idx + fuel →
        (service i).head? = none ∨ (service i).head? = some "") →
      (c = none ∨ c = some "") →
      (lastWritten service idx fuel c = none ∨ lastWritten service idx fuel c = some "") := by
  intro fuel
  induction fuel with
  | zero =>
    intro idx c _ hc
    simpa [lastWritten] using hc
  | succ n ih =>
    intro idx c h hc
    simp only [lastWritten]
    rcases h idx (Nat.le_refl _) (by omega) with hh | hh
    · rw [cleanIter_none hh]
      exact ih (idx + 1) c (fun i hi1 hi2 => h i (by omega) (by omega)) hc
    · rw [cleanIter_some hh]
      exact ih (idx + 1) (some "") (fun i hi1 hi2 => h i (by omega) (by omega)) (Or.inr rfl)

theorem cleanRun_proj (service : Nat → GeminiResponse) (retries : Int) (h : 0 ≤ retries) :
    cleanRun service retries =
      { output :=
          match (cleanLoop service (retries.toNat + 1) 0 none).cleaned with
          | some t => if t = "" then gemini_error_sentinel else t
          | none => gemini_error_sentinel,
        attempts := (cleanLoop service (retries.toNat + 1) 0 none).attempts,
        sleeps := (cleanLoop service (retries.toNat + 1) 0 none).sleeps,
        accepted := (cleanLoop service (retries.toNat + 1) 0 none).accepted } := by
  unfold cleanRun
  rw [if_neg (by omega : ¬ retries < 0)]

theorem cleanRun_natCast (service : Nat → GeminiResponse) (n : Nat) :
    cleanRun service (n : Int) =
      { output :=
          match (cleanLoop service (n + 1) 0 none).cleaned with
          | some t => if t = "" then gemini_error_sentinel else t
          | none => gemini_error_sentinel,
        attempts := (cleanLoop service (n + 1) 0 none).attempts,
        sleeps := (cleanLoop service (n + 1) 0 none).sleeps,
        accepted := (cleanLoop service (n + 1) 0 none).accepted } := by
  rw [cleanRun_proj service (n : Int) (by omega)]
  have h : ((n : Int)).toNat = n := by omega
  rw [h]

/-! ## Claim C1 -/

/-- C1: An attempt of the cleaning loop whose response carries head text
`rt` is accepted, stopping iteration immediately, iff `rt` contains the
substring `"UPC"` or the substring `"SKU"` and `rt` contains zero
occurrences of the substring `null`; in particular, a first-attempt
response text containing `"UPC": "` with zero `null` occurrences makes
`_run` stop after exactly one service invocation. -/
theorem cleanRun_accepts_iff_identifier_found
    (service : Nat → GeminiResponse) (retries : Int) (hret : 0 ≤ retries)
    (r : String) (cs : List String) (h0 : service 0 = r :: cs) :
    (∀ (fuel idx : Nat) (c : Option String) (rt : String),
        (service idx).head? = some rt →
        (cleanLoop service (fuel + 1) idx c = ⟨some rt, 1, 0, true⟩ ↔
          acceptanceTest rt = true)) ∧
    (((cleanRun service retries).attempts = 1 ∧ (cleanRun service retries).sleeps = 0) ↔
      acceptanceTest r = true) ∧
    (hasSubstr "\"UPC\": \"".data r.data = true → countOcc "null".data r.data = 0 →
      (cleanRun service retries).attempts = 1 ∧ (cleanRun service retries).sleeps = 0) := by
  have partA : ∀ (fuel idx : Nat) (c : Option String) (rt : String),
      (service idx).head? = some rt →
      (cleanLoop service (fuel + 1) idx c = ⟨some rt, 1, 0, true⟩ ↔
        acceptanceTest rt = true) := by
    intro fuel idx c rt hh
    cases hb : acceptanceTest rt with
    | true =>
      have hacc : responseAccepted (service idx) = true := by
        unfold responseAccepted
        rw [hh]
        exact hb
      rw [cleanLoop_succ_accept service fuel idx c hacc, cleanIter_some hh]
      simp
    | false =>
      have hacc : responseAccepted (service idx) = false := by
        unfold responseAccepted
        rw [hh]
        exact hb
      rw [cleanLoop_succ_reject service fuel idx c hacc]
      simp only [CleanLoopResult.mk.injEq]
      constructor
      · rintro ⟨-, -, hsl, -⟩
        exact absurd hsl (by omega)
      · intro hcontra
        exact absurd hcontra (by decide)
  have hh0 : (service 0).head? = some r := by rw [h0]; rfl
  have partB : ((cleanRun service retries).attempts = 1 ∧
      (cleanRun service retries).sleeps = 0) ↔ acceptanceTest r = true := by
    rw [cleanRun_proj service retries hret]
    cases hb : acceptanceTest r with
    | true =>
      have hacc : responseAccepted (service 0) = true := by
        unfold responseAccepted
        rw [hh0]
        exact hb
      rw [cleanLoop_succ_accept service retries.toNat 0 none hacc]
      simp
    | false =>
      have hacc : responseAccepted (service 0) = false := by
        unfold responseAccepted
        rw [hh0]
        exact hb
      rw [cleanLoop_succ_reject service retries.toNat 0 none hacc]
      dsimp only
      constructor
      · rintro ⟨-, hsl⟩
        exact absurd hsl (by omega)
      · intro hx
        exact absurd hx (by decide)
  refine ⟨partA, partB, fun h1 h2 => partB.mpr ?_⟩
  have hU : hasSubstr "\"UPC\"".data r.data = true := hasSubstr_trans (by decide) h1
  simp [acceptanceTest, hU, h2]

/-- Witness for C1 at a concrete accepted first response. -/
theorem cleanRun_accepts_iff_identifier_found_witness :
    (cleanRun (fun _ : Nat => ["\"UPC\": \"012\""]) 1).attempts = 1 :=
  ((cleanRun_accepts_iff_identifier_found (fun _ : Nat => ["\"UPC\": \"012\""]) 1
    (by decide) "\"UPC\": \"012\"" [] rfl).2.1.mpr (by decide)).1

/-! ## Claim C2 -/

/-- C2 counterexample: with `retries = 0` and the single response text
`abc`, which fails the acceptance test, `_run` returns `abc`, not the
error sentinel claimed by the specification. -/
theorem cleanRun_exhaustion_not_sentinel_cex :
    responseAccepted ((fun _ : Nat => ["abc"]) 0) = false ∧
    (cleanRun (fun _ : Nat => ["abc"]) 0).attempts = 0 + 1 ∧
    (cleanRun (fun _ : Nat => ["abc"]) 0).output ≠ gemini_error_sentinel := by decide

/-- C2 (amended): when no response satisfies the acceptance test, `_run`
makes exactly `retries + 1` service invocations; the fixed error sentinel
is returned when additionally every attempt yields an empty candidate
list or empty head text; `_run` is a total function, so the failure is
never an exception. -/
theorem cleanRun_exhaustion_attempts_and_sentinel
    (service : Nat → GeminiResponse) (n : Nat)
    (hrej : ∀ i, i ≤ n → responseAccepted (service i) = false) :
    (cleanRun service (n : Int)).attempts = n + 1 ∧
    ((∀ i, i ≤ n → (service i).head? = none ∨ (service i).head? = some "") →
      (cleanRun service (n : Int)).output = gemini_error_sentinel) := by
  rw [cleanRun_natCast]
  rw [cleanLoop_rejectAll service (n + 1) 0 none (fun i hi1 hi2 => hrej i (by omega))]
  constructor
  · rfl
  · intro hempty
    have hlw := lastWritten_none_or_empty service (n + 1) 0 none
      (fun i hi1 hi2 => hempty i (by omega)) (Or.inl rfl)
    dsimp only
    rcases hlw with hlw | hlw <;> rw [hlw]
    rfl

/-- Witness for the amended C2: two empty-candidate responses with
`retries = 1` give two attempts and the sentinel. -/
theorem cleanRun_exhaustion_attempts_and_sentinel_witness :
    (cleanRun (fun _ : Nat => ([] : GeminiResponse)) ((1 : Nat) : Int)).attempts = 2 ∧
    (cleanRun (fun _ : Nat => ([] : GeminiResponse)) ((1 : Nat) : Int)).output
      = gemini_error_sentinel := by
  have h := cleanRun_exhaustion_attempts_and_sentinel
    (fun _ : Nat => ([] : GeminiResponse)) 1 (fun i _ => rfl)
  exact ⟨h.1, h.2 (fun i _ => Or.inl rfl)⟩

/-! ## Claim C3 -/

/-- C3: for every `retries = n ≥ 0` the loop makes at most `n + 1`
attempts, and a one-unit sleep follows every attempt that does not break:
on an accepted run the sleeps are one fewer than the attempts, on a
non-accepted run every attempt is followed by a sleep. -/
theorem cleanRun_attempt_bound_and_delay (service : Nat → GeminiResponse) (n : Nat) :
    (cleanRun service (n : Int)).attempts ≤ n + 1 ∧
    ((cleanRun service (n : Int)).accepted = true →
      (cleanRun service (n : Int)).sleeps = (cleanRun service (n : Int)).attempts - 1) ∧
    ((cleanRun service (n : Int)).accepted = false →
      (cleanRun service (n : Int)).sleeps = (cleanRun service (n : Int)).attempts) := by
  rw [cleanRun_natCast]
  obtain ⟨h1, h2, h3, h4⟩ := cleanLoop_bounds service (n + 1) 0 none
  exact ⟨h1, h3, h4⟩

/-- Witness for C3: responses that never break give two attempts and two
sleeps with `retries = 1`. -/
theorem cleanRun_attempt_bound_and_delay_witness :
    (cleanRun (fun _ : Nat => ([] : GeminiResponse)) ((1 : Nat) : Int)).attempts ≤ 2 ∧
    (cleanRun (fun _ : Nat => ([] : GeminiResponse)) ((1 : Nat) : Int)).sleeps =
      (cleanRun (fun _ : Nat => ([] : GeminiResponse)) ((1 : Nat) : Int)).attempts := by
  have h := cleanRun_attempt_bound_and_delay (fun _ : Nat => ([] : GeminiResponse)) 1
  exact ⟨h.1, h.2.2 (by decide)⟩

/-! ## Claim C9 -/

/-- C9 counterexample: attempt 0 writes the non-empty text `abc` into
`cleaned_output` (so not every attempt leaves it unset or empty), attempt
1 overwrites it with the empty text, and `_run` still returns the error
sentinel. -/
theorem cleanRun_sentinel_despite_nonempty_attempt_cex :
    responseAccepted ((fun i : Nat => if i == 0 then ["abc"] else [""]) 0) = false ∧
    responseAccepted ((fun i : Nat => if i == 0 then ["abc"] else [""]) 1) = false ∧
    lastWritten (fun i : Nat => if i == 0 then ["abc"] else [""]) 0 1 none = some "abc" ∧
    ("abc" : String) ≠ "" ∧
    (cleanRun (fun i : Nat => if i == 0 then ["abc"] else [""]) 1).output
      = gemini_error_sentinel := by decide

/-- C9 (amended): on a run in which no attempt is accepted, if the final
value of `cleaned_output` (the text written by the last attempt with a
non-empty candidate list) is a non-empty text, `_run` returns that text;
and whenever the final value is unset or the empty text, `_run` returns
the error sentinel. -/
theorem cleanRun_returns_last_written_text (service : Nat → GeminiResponse) (n : Nat)
    (hrej : ∀ i, i ≤ n → responseAccepted (service i) = false) :
    (∀ t : String, lastWritten service 0 (n + 1) none = some t → t ≠ "" →
      (cleanRun service (n : Int)).output = t) ∧
    ((lastWritten service 0 (n + 1) none = none ∨
        lastWritten service 0 (n + 1) none = some "") →
      (cleanRun service (n : Int)).output = gemini_error_sentinel) := by
  rw [cleanRun_natCast]
  rw [cleanLoop_rejectAll service (n + 1) 0 none (fun i hi1 hi2 => hrej i (by omega))]
  constructor
  · intro t ht hne
    dsimp only
    rw [ht]
    exact if_neg hne
  · intro hlw
    dsimp only
    rcases hlw with hlw | hlw <;> rw [hlw]
    rfl

/-- Witness for the amended C9: a single rejecting non-empty response is
returned verbatim. -/
theorem cleanRun_returns_last_written_text_witness :
    (cleanRun (fun _ : Nat => ["abc"]) ((0 : Nat) : Int)).output = "abc" := by
  have h := cleanRun_returns_last_written_text (fun _ : Nat => ["abc"]) 0
    (fun i _ => rfl)
  exact h.1 "abc" rfl (by decide)

/-! ## Claim C10 -/

/-- C10: with a negative `retries` the loop body never runs, the service
is invoked zero times, and the error sentinel is returned. -/
theorem cleanRun_negative_retries (service : Nat → GeminiResponse) (retries : Int)
    (h : retries < 0) :
    (cleanRun service retries).attempts = 0 ∧
    (cleanRun service retries).output = gemini_error_sentinel := by
  unfold cleanRun
  rw [if_pos h]
  exact ⟨rfl, rfl⟩

/-- Witness for C10 at `retries = -1`. -/
theorem cleanRun_negative_retries_witness :
    (cleanRun (fun _ : Nat => ["\"UPC\": \"012\""]) (-1)).attempts = 0 ∧
    (cleanRun (fun _ : Nat => ["\"UPC\": \"012\""]) (-1)).output = gemini_error_sentinel :=
  cleanRun_negative_retries (fun _ : Nat => ["\"UPC\": \"012\""]) (-1) (by decide)

/-! ## Claim C4 -/

/-- C4: `_format_as_markdown` returns its input unchanged, so `_run`
returns exactly the wrapped scrape tool result for the url. -/
theorem markdownScrapeTool_passthrough (tool : MarkdownScrapeTool) (text url : String) :
    tool.format_as_markdown text = text ∧ tool.run url = tool.scrape_tool url :=
  ⟨rfl, rfl⟩

/-! ## Claim C5 -/

theorem replaceAllAux_single (a b : Char) : ∀ s : List Char,
    replaceAllAux [a] [b] 0 s = s.map (fun c => if c = a then b else c) := by
  intro s
  induction s with
  | nil => rfl
  | cons c t ih =>
    by_cases hc : c = a
    · subst hc
      have hcond : ([c] ≠ [] ∧ pyStartsWith [c] (c :: t) = true) :=
        ⟨by simp, by simp [pyStartsWith]⟩
      simp only [replaceAllAux, if_pos hcond]
      simp [ih]
    · have hcond : ¬([a] ≠ [] ∧ pyStartsWith [a] (c :: t) = true) := by
        rintro ⟨-, hp⟩
        rw [show pyStartsWith [a] (c :: t) = (a == c && pyStartsWith [] t) from rfl] at hp
        simp [pyStartsWith] at hp
        exact hc hp.symm
      simp only [replaceAllAux, if_neg hcond]
      simp [ih, hc]

theorem replaceAllAux_delete (a : Char) : ∀ s : List Char,
    replaceAllAux [a] [] 0 s = s.filter (fun c => c != a) := by
  intro s
  induction s with
  | nil => rfl
  | cons c t ih =>
    by_cases hc : c = a
    · subst hc
      have hcond : ([c] ≠ [] ∧ pyStartsWith [c] (c :: t) = true) :=
        ⟨by simp, by simp [pyStartsWith]⟩
      simp only [replaceAllAux, if_pos hcond]
      simp [ih]
    · have hcond : ¬([a] ≠ [] ∧ pyStartsWith [a] (c :: t) = true) := by
        rintro ⟨-, hp⟩
        rw [show pyStartsWith [a] (c :: t) = (a == c && pyStartsWith [] t) from rfl] at hp
        simp [pyStartsWith] at hp
        exact hc hp.symm
      simp only [replaceAllAux, if_neg hcond]
      simp [ih, List.filter_cons, hc]

theorem replace_chain_eq_sanitizeSpec (s : List Char) :
    replaceAll ['"'] [] (replaceAll ['/'] ['_'] (replaceAll [' '] ['_'] s)) =
      sanitizeSpec s := by
  unfold replaceAll sanitizeSpec
  rw [replaceAllAux_single, replaceAllAux_single, replaceAllAux_delete, List.map_map]
  congr 2
  funext c
  by_cases h1 : c = ' '
  · subst h1
    decide
  · by_cases h2 : c = '/'
    · subst h2
      decide
    · simp [Function.comp, h1, h2]

/-- C5: the per-record search-output path is formed from
`manufacturer_name ++ "_" ++ product_description` with spaces and
slashes replaced by underscores and double quotes removed, followed by
an underscore and the timestamp (inside the `output/` directory with a
`.txt` extension), and it always differs from the shared artifact path
`output/output_upc_search.json` of the write stage. -/
theorem generate_output_filename_shape_and_distinct (inputs : InputRecord)
    (timestamp : String) :
    generate_output_filename inputs timestamp =
      "output/" ++
        String.mk (sanitizeSpec
          (inputs.manufacturer_name ++ "_" ++ inputs.product_description).data) ++
        "_" ++ timestamp ++ ".txt" ∧
    generate_output_filename inputs timestamp ≠ intermediate_file_path := by
  constructor
  · simp only [generate_output_filename]
    rw [replace_chain_eq_sanitizeSpec]
  · intro heq
    have h3 : (generate_output_filename inputs timestamp).data.getLast? = some 't' := by
      simp only [generate_output_filename]
      rw [String.data_append, List.getLast?_append]
      rfl
    rw [heq] at h3
    have h4 : intermediate_file_path.data.getLast? = some 'n' := rfl
    rw [h4] at h3
    exact absurd h3 (by decide)

/-! ## Claim C6 -/

theorem intercalate_go_eq (sep : String) : ∀ (xs : List String) (acc : String),
    String.intercalate.go acc sep xs = acc ++ sepTailJoin sep xs := by
  intro xs
  induction xs with
  | nil =>
    intro acc
    rw [show String.intercalate.go acc sep [] = acc from rfl]
    simp [sepTailJoin]
  | cons x xs ih =>
    intro acc
    rw [show String.intercalate.go acc sep (x :: xs) =
      String.intercalate.go (acc ++ sep ++ x) sep xs from rfl]
    rw [ih]
    rw [show sepTailJoin sep (x :: xs) = sep ++ x ++ sepTailJoin sep xs from rfl]
    simp [String.append_assoc]

theorem intercalate_commaNewline (l : List String) :
    String.intercalate ",\n" l = commaNewlineJoinSpec l := by
  cases l with
  | nil => rfl
  | cons a as =>
    rw [show String.intercalate ",\n" (a :: as) = String.intercalate.go a ",\n" as from rfl]
    rw [intercalate_go_eq]
    induction as generalizing a with
    | nil => simp [sepTailJoin, commaNewlineJoinSpec]
    | cons b bs ih =>
      rw [show sepTailJoin ",\n" (b :: bs) = ",\n" ++ b ++ sepTailJoin ",\n" bs from rfl]
      rw [show commaNewlineJoinSpec (a :: b :: bs) =
        a ++ ",\n" ++ commaNewlineJoinSpec (b :: bs) from rfl]
      rw [← ih b]
      simp [String.append_assoc]

/-- C6: the final batch artifact is the collected per-record strings
joined with comma-newline separators, wrapped in a bracket-newline on
the left and a newline-bracket on the right. -/
theorem final_results_string_join_shape (l : List String) :
    final_results_string l = "[\n" ++ commaNewlineJoinSpec l ++ "\n]" := by
  unfold final_results_string
  rw [intercalate_commaNewline]

/-! ## Batch loop lemmas -/

theorem runRecord_final_results (st : BatchState) (inputs : InputRecord)
    (eff : RecordEffect) :
    (runRecord st inputs eff).final_results
      = st.final_results ++ (recordContribution eff).toList := by
  unfold runRecord recordContribution
  cases ha : eff.artifact with
  | none => simp
  | some content =>
    by_cases hsz : 0 < content.utf8ByteSize
    · cases hro : eff.readOk with
      | true => simp [hsz, hro]
      | false => simp [hsz, hro]
    · simp [hsz]

theorem runRecord_log (st : BatchState) (inputs : InputRecord) (eff : RecordEffect) :
    (runRecord st inputs eff).log = st.log ++ recordLog inputs eff := by
  unfold runRecord recordLog
  cases ha : eff.artifact with
  | none => simp
  | some content =>
    by_cases hsz : 0 < content.utf8ByteSize
    · cases hro : eff.readOk with
      | true => simp [hsz, hro]
      | false => simp [hsz, hro]
    · simp [hsz]

theorem runBatch_go (items : List (InputRecord × RecordEffect)) : ∀ st : BatchState,
    (items.foldl (fun st p => runRecord st p.1 p.2) st).final_results
      = st.final_results ++ items.filterMap (fun p => recordContribution p.2) ∧
    (items.foldl (fun st p => runRecord st p.1 p.2) st).log
      = st.log ++ (items.map (fun p => recordLog p.1 p.2)).flatten := by
  induction items with
  | nil =>
    intro st
    simp
  | cons p l ih =>
    intro st
    rw [List.foldl_cons]
    obtain ⟨h1, h2⟩ := ih (runRecord st p.1 p.2)
    constructor
    · rw [h1, runRecord_final_results, List.append_assoc]
      congr 1
      cases hc : recordContribution p.2 <;> simp [List.filterMap_cons, hc]
    · rw [h2, runRecord_log, List.append_assoc]
      congr 1

theorem runBatch_final_results (items : List (InputRecord × RecordEffect)) :
    (runBatch items).final_results = items.filterMap (fun p => recordContribution p.2) := by
  have h := (runBatch_go items ⟨[], []⟩).1
  simpa [runBatch] using h

theorem runBatch_log (items : List (InputRecord × RecordEffect)) :
    (runBatch items).log = (items.map (fun p => recordLog p.1 p.2)).flatten := by
  have h := (runBatch_go items ⟨[], []⟩).2
  simpa [runBatch] using h

theorem filterMap_all_present (items : List (InputRecord × RecordEffect))
    (h : ∀ p ∈ items, ∃ c, p.2.artifact = some c ∧ 0 < c.utf8ByteSize ∧ p.2.readOk = true) :
    (items.filterMap (fun p => recordContribution p.2)).length = items.length ∧
    ∀ i : Nat, (items.filterMap (fun p => recordContribution p.2))[i]?
      = (items[i]?).bind (fun p => p.2.artifact) := by
  induction items with
  | nil => simp
  | cons p l ih =>
    obtain ⟨c, hart, hsz, hro⟩ := h p (List.mem_cons_self p l)
    have hc : recordContribution p.2 = some c := by
      unfold recordContribution
      rw [hart]
      show (if 0 < c.utf8ByteSize ∧ p.2.readOk = true then some c else none) = some c
      rw [if_pos ⟨hsz, hro⟩]
    obtain ⟨ih1, ih2⟩ := ih (fun q hq => h q (List.mem_cons_of_mem p hq))
    simp only [List.filterMap_cons, hc]
    constructor
    · simp [ih1]
    · intro i
      cases i with
      | zero => simp [hart]
      | succ j => simpa using ih2 j

/-! ## Claim C7 -/

/-- C7: when every record of the batch leaves the shared artifact file
existing with positive size and every read succeeds, the collected
result list has exactly one element per input record, and its i-th
element is the artifact content produced by the i-th record. -/
theorem runBatch_all_success_length_and_order
    (items : List (InputRecord × RecordEffect))
    (h : ∀ p ∈ items, ∃ c, p.2.artifact = some c ∧ 0 < c.utf8ByteSize ∧ p.2.readOk = true) :
    (runBatch items).final_results.length = items.length ∧
    ∀ i : Nat, (runBatch items).final_results[i]?
      = (items[i]?).bind (fun p => p.2.artifact) := by
  rw [runBatch_final_results]
  exact filterMap_all_present items h

/-- Witness for C7 on a one-record batch. -/
theorem runBatch_all_success_length_and_order_witness :
    (runBatch [(⟨"Acme", "Widget A", "123"⟩, ⟨some "x", true⟩)]).final_results.length = 1 ∧
    (runBatch [(⟨"Acme", "Widget A", "123"⟩, ⟨some "x", true⟩)]).final_results[0]?
      = some "x" := by
  have h := runBatch_all_success_length_and_order
    [(⟨"Acme", "Widget A", "123"⟩, ⟨some "x", true⟩)]
    (fun p hp => by
      rw [List.mem_singleton] at hp
      subst hp
      exact ⟨"x", rfl, by decide, rfl⟩)
  exact ⟨h.1, (h.2 0).trans rfl⟩

/-! ## Claim C8 -/

/-- C8: a record whose pipeline run leaves the shared artifact file
missing or of size zero contributes nothing to the collected results
(the batch result equals the one without that record, so its length
falls short of the input count), a skip message is logged, and the
records after it are still processed. -/
theorem runBatch_skip_empty_artifact
    (before after : List (InputRecord × RecordEffect)) (inputs : InputRecord)
    (eff : RecordEffect)
    (h : eff.artifact = none ∨ ∃ c, eff.artifact = some c ∧ c.utf8ByteSize = 0) :
    (runBatch (before ++ (inputs, eff) :: after)).final_results
      = (runBatch (before ++ after)).final_results ∧
    (runBatch (before ++ (inputs, eff) :: after)).final_results.length
      ≤ before.length + after.length ∧
    skip_message ∈ (runBatch (before ++ (inputs, eff) :: after)).log := by
  have hc : recordContribution eff = none := by
    rcases h with h | ⟨c, hart, hsz⟩
    · unfold recordContribution
      rw [h]
    · unfold recordContribution
      rw [hart]
      show (if 0 < c.utf8ByteSize ∧ eff.readOk = true then some c else none) = none
      rw [if_neg]
      rintro ⟨h1, -⟩
      omega
  have hskip : skip_message ∈ recordLog inputs eff := by
    rcases h with h | ⟨c, hart, hsz⟩
    · unfold recordLog
      rw [h]
      simp
    · unfold recordLog
      rw [hart]
      show skip_message ∈ [processing_message inputs] ++
        (if 0 < c.utf8ByteSize then
          (if eff.readOk then [] else [read_error_message])
         else [skip_message]) ++ [finished_message inputs]
      rw [if_neg (by omega : ¬ 0 < c.utf8ByteSize)]
      simp
  have hfr : (runBatch (before ++ (inputs, eff) :: after)).final_results
      = (runBatch (before ++ after)).final_results := by
    rw [runBatch_final_results, runBatch_final_results, List.filterMap_append,
      List.filterMap_append]
    congr 1
    simp only [List.filterMap_cons, hc]
  refine ⟨hfr, ?_, ?_⟩
  · rw [hfr, runBatch_final_results, List.filterMap_append]
    have hb := List.length_filterMap_le (fun p : InputRecord × RecordEffect =>
      recordContribution p.2) before
    have ha := List.length_filterMap_le (fun p : InputRecord × RecordEffect =>
      recordContribution p.2) after
    rw [List.length_append]
    omega
  · rw [runBatch_log]
    refine List.mem_flatten.mpr ⟨recordLog inputs eff, ?_, hskip⟩
    exact List.mem_map.mpr ⟨(inputs, eff), by simp, rfl⟩

/-- Witness for C8 on a one-record batch whose artifact file is missing. -/
theorem runBatch_skip_empty_artifact_witness :
    (runBatch [(⟨"Acme", "Widget A", "123"⟩, ⟨none, true⟩)]).final_results
      = (runBatch []).final_results ∧
    (runBatch [(⟨"Acme", "Widget A", "123"⟩, ⟨none, true⟩)]).final_results.length ≤ 0 + 0 ∧
    skip_message ∈ (runBatch [(⟨"Acme", "Widget A", "123"⟩, ⟨none, true⟩)]).log :=
  runBatch_skip_empty_artifact [] [] ⟨"Acme", "Widget A", "123"⟩ ⟨none, true⟩ (Or.inl rfl)

